import Mathlib

/-!
Shallow embedding of the Clipboard_PRO record store (`src/storage.py`), the
configuration module (`src/config.py`), the clipboard monitor's image branch
(`src/clipboard_monitor.py`) and the exit handler of the main window
(`src/main_window.py::quit_application`).

Modelling conventions:
* Python float epoch timestamps (`record['id']`, `time.time()`) are modelled
  as `Int`; the claims only use ordering, equality and subtraction on them.
* The filesystem is modelled by `FS`: the set of files inside the
  `temp_images` directory (`tempFiles`), whether that directory exists
  (`tempDirExists`), and the contents of `clipboard_data.json` as an
  already-parsed record list (`dataFile`, `none` = the file does not exist).
* `delete_file_permanently` plus its `os.path.exists` guard becomes removal
  of the path from `tempFiles` (a no-op when absent, as in the source).
* Python's stable `list.sort(key=id, reverse=True)` is embedded as a stable
  descending insertion sort `sortDesc`.
-/

inductive RecordType where
  | text
  | file
  | image
deriving DecidableEq

/-- A clipboard record, as built in `ClipboardMonitor._handle_new_content`:
`{id, content, type, timestamp, favorited}`. -/
structure Record where
  id : Int
  content : String
  type : RecordType
  timestamp : String
  favorited : Bool
deriving DecidableEq

/-- The configuration dictionary of `config.py`:
`max_records`, `max_age_minutes`, `clear_data_on_exit`. -/
structure ConfigData where
  maxRecords : Option Nat
  maxAgeMinutes : Option Int
  clearDataOnExit : Bool
deriving DecidableEq

/-- `Config._load_default_config`: `max_records = None`,
`max_age_minutes = None`, `clear_data_on_exit = True`. -/
def defaultConfig : ConfigData :=
  { maxRecords := none, maxAgeMinutes := none, clearDataOnExit := true }

/-- The on-disk `config.json`, with each key optionally present
(`Config._load_config` does `dict.update` with whatever keys were loaded). -/
structure ConfigFile where
  maxRecords : Option (Option Nat)
  maxAgeMinutes : Option (Option Int)
  clearDataOnExit : Option Bool

/-- `Config.__init__`: defaults first, then `_load_config` overwrites the
keys present in the file (if the file exists). -/
def configInit (file : Option ConfigFile) : ConfigData :=
  match file with
  | none => defaultConfig
  | some f =>
      { maxRecords := f.maxRecords.getD defaultConfig.maxRecords
        maxAgeMinutes := f.maxAgeMinutes.getD defaultConfig.maxAgeMinutes
        clearDataOnExit := f.clearDataOnExit.getD defaultConfig.clearDataOnExit }

/-- The filesystem state the store interacts with. -/
structure FS where
  tempFiles : List String
  tempDirExists : Bool
  dataFile : Option (List Record)
deriving DecidableEq

/-- Files only live inside the temp directory: if the directory does not
exist there are no temp files. -/
def FS.wf (fs : FS) : Prop :=
  fs.tempDirExists = false → fs.tempFiles = []

/-- `delete_file_permanently` guarded by `os.path.exists`: remove the path
from the temp-file set (no-op when absent). -/
def deleteFilePermanently (fs : FS) (path : String) : FS :=
  { fs with tempFiles := fs.tempFiles.filter (fun p => p ≠ path) }

/-- The loops in `_filter_by_age` / `_save_data` / `update_config` /
`clear_all` that delete the image file of each record in a list. -/
def deleteImageFiles (rs : List Record) (fs : FS) : FS :=
  rs.foldl (fun acc r =>
    if r.type = RecordType.image then deleteFilePermanently acc r.content
    else acc) fs

/-- The in-memory storage state of `Storage`. -/
structure Storage where
  config : Option ConfigData
  maxRecords : Option Nat
  records : List Record
  fs : FS
deriving DecidableEq

/-- Stable insertion of a record into a descending-by-id list (helper of
`sortDesc`). -/
def insertDesc (r : Record) : List Record → List Record
  | [] => [r]
  | x :: xs => if x.id < r.id then r :: x :: xs else x :: insertDesc r xs

/-- `self.records.sort(key=lambda x: x['id'], reverse=True)`: a stable
descending sort by `id`. -/
def sortDesc : List Record → List Record
  | [] => []
  | x :: xs => insertDesc x (sortDesc xs)

/-- `Storage._filter_by_age`: no-op when there is no config or no
`max_age_minutes`; otherwise keep records with
`current_time - id <= max_age_minutes * 60` and delete the image file of
every filtered-out image record. -/
def filterByAge (now : Int) (s : Storage) : Storage :=
  match s.config with
  | none => s
  | some cfg =>
      match cfg.maxAgeMinutes with
      | none => s
      | some m =>
          let maxAgeSeconds := m * 60
          let kept := s.records.filter (fun r => now - r.id ≤ maxAgeSeconds)
          let dropped := s.records.filter (fun r => ¬ (now - r.id ≤ maxAgeSeconds))
          { s with records := kept, fs := deleteImageFiles dropped s.fs }

/-- `Storage._save_data`: when `max_records` is set and exceeded, delete the
image files of the records beyond the limit and truncate; then write the
JSON data file. -/
def saveData (s : Storage) : Storage :=
  let s' :=
    match s.maxRecords with
    | some n =>
        if s.records.length > n then
          { s with records := s.records.take n
                   fs := deleteImageFiles (s.records.drop n) s.fs }
        else s
    | none => s
  { s' with fs := { s'.fs with dataFile := some s'.records } }

/-- `Storage._cleanup_orphaned_images`: if the temp directory exists, walk
its files and delete every file that is not the `content` of some image
record. -/
def cleanupOrphanedImages (s : Storage) : Storage :=
  if s.fs.tempDirExists then
    let refs := (s.records.filter (fun r => r.type = RecordType.image)).map Record.content
    { s with fs := (s.fs.tempFiles.foldl
        (fun acc p => if p ∈ refs then acc else deleteFilePermanently acc p) s.fs) }
  else s

/-- `Storage._load_data`: if the data file exists, read the records, sort by
id descending, filter by age, truncate to `max_records` (when set), then
clean orphaned images; otherwise leave the state unchanged. -/
def loadData (now : Int) (s : Storage) : Storage :=
  match s.fs.dataFile with
  | none => s
  | some raw =>
      let s1 := { s with records := sortDesc raw }
      let s2 := filterByAge now s1
      let s3 :=
        match s2.maxRecords with
        | some n => { s2 with records := s2.records.take n }
        | none => s2
      cleanupOrphanedImages s3

/-- `Storage.__init__`: `max_records` comes from the config (default 50 with
no config), records start empty, then `_load_data` runs. -/
def Storage.init (now : Int) (config : Option ConfigData) (fs : FS) : Storage :=
  let maxR := match config with
    | none => some 50
    | some c => c.maxRecords
  loadData now { config := config, maxRecords := maxR, records := [], fs := fs }

/-- The duplicate scan of `Storage.add_record`: find the first record with
the same content and type, returning it and the list with that occurrence
removed. -/
def extractFirst (p : Record → Prop) [DecidablePred p] :
    List Record → Option (Record × List Record)
  | [] => none
  | x :: xs =>
      if p x then some (x, xs)
      else (extractFirst p xs).map (fun pr => (pr.1, x :: pr.2))

/-- `Storage.add_record`: if a record with equal content and type exists,
update its id and timestamp, move it to the front and save; otherwise insert
at the front, filter by age, truncate to `max_records` (when set), and save. -/
def addRecord (now : Int) (s : Storage) (r : Record) : Storage :=
  match extractFirst (fun e => e.content = r.content ∧ e.type = r.type) s.records with
  | some (existing, rest) =>
      saveData { s with records :=
        { existing with id := r.id, timestamp := r.timestamp } :: rest }
  | none =>
      let s1 := { s with records := r :: s.records }
      let s2 := filterByAge now s1
      let s3 :=
        match s2.maxRecords with
        | some n => { s2 with records := s2.records.take n }
        | none => s2
      saveData s3

/-- `Storage.update_config`: install the new config and its `max_records`,
filter by age, delete the image files of records beyond the new limit and
truncate, and save only if the record count decreased. -/
def updateConfig (now : Int) (s : Storage) (c : ConfigData) : Storage :=
  let s0 := { s with config := some c, maxRecords := c.maxRecords }
  let oldCount := s0.records.length
  let s1 := filterByAge now s0
  let s2 :=
    match s1.maxRecords with
    | some n =>
        if s1.records.length > n then
          { s1 with records := s1.records.take n
                    fs := deleteImageFiles (s1.records.drop n) s1.fs }
        else s1
    | none => s1
  if s2.records.length < oldCount then saveData s2 else s2

/-- `Storage.delete_record`: find the first record with the given id, delete
its image file if it is an image, drop every record with that id, and save. -/
def deleteRecord (s : Storage) (rid : Int) : Storage :=
  let fs' :=
    match s.records.find? (fun r => r.id == rid) with
    | some r =>
        if r.type = RecordType.image then deleteFilePermanently s.fs r.content
        else s.fs
    | none => s.fs
  saveData { s with records := s.records.filter (fun r => r.id ≠ rid), fs := fs' }

/-- `Storage.delete_multiple`: delete the image files of the records whose
id is listed, drop those records, and save. -/
def deleteMultiple (s : Storage) (rids : List Int) : Storage :=
  let toDelete := s.records.filter (fun r => r.id ∈ rids)
  let fs' := deleteImageFiles toDelete s.fs
  saveData { s with records := s.records.filter (fun r => r.id ∉ rids), fs := fs' }

/-- `Storage.clear_all`: delete every image record's file, empty the list
and save, delete the JSON data file, then remove the temp-image directory. -/
def clearAll (s : Storage) : Storage :=
  let s1 := saveData { s with records := [], fs := deleteImageFiles s.records s.fs }
  let fs2 := { s1.fs with dataFile := none }
  let fs3 :=
    if fs2.tempDirExists then { fs2 with tempFiles := [], tempDirExists := false }
    else fs2
  { s1 with fs := fs3 }

/-- The image branch of `ClipboardMonitor._check_clipboard` (CF_DIB case).
`last` is `self.last_content`; `decodeOk` tells whether the
`Image.open`/`image.save` sequence succeeds (an exception there is caught
after the `last_content` assignment is skipped). On success a record is
built as in `_handle_new_content` and stored. Returns the new
`last_content` and the new storage. -/
def checkClipboardImage (last : Option String) (imageHash : String)
    (decodeOk : Bool) (tempPath : String) (now : Int) (timestampStr : String)
    (storage : Storage) : Option String × Storage :=
  if some imageHash ≠ last then
    if decodeOk then
      let record : Record :=
        { id := now, content := tempPath, type := RecordType.image
          timestamp := timestampStr, favorited := false }
      (some imageHash, addRecord now storage record)
    else (last, storage)
  else (last, storage)

/-- The data-clearing step of `MainWindow.quit_application`: when a config
is present and `clear_data_on_exit` is set, `clear_all` runs. -/
def quitClearStep (config : Option ConfigData) (s : Storage) : Storage :=
  match config with
  | some c => if c.clearDataOnExit then clearAll s else s
  | none => s

/-- Store operations for reachability statements. -/
inductive Op where
  | add (now : Int) (r : Record)
  | del (rid : Int)
  | delMany (rids : List Int)
  | updateCfg (now : Int) (c : ConfigData)
  | clear
  | save
  | load (now : Int)

/-- Apply one operation. -/
def applyOp (s : Storage) : Op → Storage
  | Op.add now r => addRecord now s r
  | Op.del rid => deleteRecord s rid
  | Op.delMany rids => deleteMultiple s rids
  | Op.updateCfg now c => updateConfig now s c
  | Op.clear => clearAll s
  | Op.save => saveData s
  | Op.load now => loadData now s

/-- Apply a sequence of operations, first to last. -/
def applyOps (s : Storage) : List Op → Storage
  | [] => s
  | op :: ops => applyOps (applyOp s op) ops

/-- One operation respects monotone ids: a record added by an `add`
operation has an id at least as large as every id already in the list. -/
def opOk (s : Storage) : Op → Bool
  | Op.add _ r => s.records.all (fun e => decide (e.id ≤ r.id))
  | _ => true

/-- Every `add` along the sequence respects monotone ids. -/
def opsMonotone (s : Storage) : List Op → Bool
  | [] => true
  | op :: ops => opOk s op && opsMonotone (applyOp s op) ops

/-- Descending-id order on adjacent records. -/
def descById (a b : Record) : Prop := b.id ≤ a.id

/-- Spec-side age filtering: keep records no older than the configured
maximum age, no filtering when unconfigured. -/
def specAgeFilter (now : Int) (cfg : Option ConfigData) (l : List Record) : List Record :=
  match cfg with
  | some c =>
      match c.maxAgeMinutes with
      | some m => l.filter (fun r => now - r.id ≤ m * 60)
      | none => l
  | none => l

/-- Spec-side count truncation: keep the first `max_records` records, all
of them when unconfigured. -/
def specTruncate (maxR : Option Nat) (l : List Record) : List Record :=
  match maxR with
  | some n => l.take n
  | none => l

/-- The retention pipeline exactly as the spec words it for loading:
"sort by id descending, then filter by age, then truncate by count".
Written from the spec sentence, to be compared with `loadData`. -/
def specRetention (now : Int) (cfg : Option ConfigData) (maxR : Option Nat)
    (raw : List Record) : List Record :=
  specTruncate maxR (specAgeFilter now cfg (sortDesc raw))

/-- Sample image record used to evaluate the theorems on concrete inputs. -/
def sampleImage : Record :=
  { id := 1, content := "a.png", type := RecordType.image, timestamp := "t1", favorited := false }

/-- Sample text record used to evaluate the theorems on concrete inputs. -/
def sampleText : Record :=
  { id := 2, content := "hello", type := RecordType.text, timestamp := "t2", favorited := false }

/-- Sample filesystem holding the sample image's file. -/
def sampleFS : FS :=
  { tempFiles := ["a.png"], tempDirExists := true, dataFile := none }

/-- Sample storage state: one image record, limit of one record. -/
def sampleStorage : Storage :=
  { config := some { maxRecords := some 1, maxAgeMinutes := none, clearDataOnExit := true }
    maxRecords := some 1
    records := [sampleImage]
    fs := sampleFS }

/-- Empty filesystem fixture. -/
def emptyFS : FS :=
  { tempFiles := [], tempDirExists := false, dataFile := none }

/-- Empty storage fixture. -/
def sampleEmptyStorage : Storage :=
  { config := none, maxRecords := none, records := [], fs := emptyFS }

/-- Config with a one-minute retention age. -/
def sampleAgeConfig : ConfigData :=
  { maxRecords := none, maxAgeMinutes := some 1, clearDataOnExit := true }

/-- Storage with the one-minute retention config and one image record. -/
def sampleAgeStorage : Storage :=
  { config := some sampleAgeConfig, maxRecords := none
    records := [sampleImage], fs := sampleFS }

/-- Storage holding one text record, for duplicate-insert tests. -/
def sampleDupStorage : Storage :=
  { config := none, maxRecords := none, records := [sampleText], fs := emptyFS }

/-- A re-copy of `sampleText`'s content with a fresh id and timestamp. -/
def sampleDupNew : Record :=
  { id := 9, content := "hello", type := RecordType.text, timestamp := "t9", favorited := false }

/-- A re-copy of `sampleText`'s content carrying the same id (a collision). -/
def sampleDupSameId : Record :=
  { id := 2, content := "hello", type := RecordType.text, timestamp := "t9", favorited := false }

/-- First of two same-id, different-content records. -/
def collideA : Record :=
  { id := 5, content := "a", type := RecordType.text, timestamp := "t", favorited := false }

/-- Second of two same-id, different-content records. -/
def collideB : Record :=
  { id := 5, content := "b", type := RecordType.text, timestamp := "t", favorited := false }

/-- Storage over its one-record limit (as reached transiently). -/
def sampleOverLimit : Storage :=
  { config := none, maxRecords := some 1
    records := [sampleText, sampleImage], fs := sampleFS }

/-- Storage whose data file holds two records, for load tests. -/
def sampleLoadStorage : Storage :=
  { config := some sampleAgeConfig, maxRecords := some 1, records := []
    fs := { tempFiles := ["a.png", "b.png"], tempDirExists := true
            dataFile := some [sampleImage, sampleText] } }

/-! ## Helper lemmas -/

theorem deleteImageFiles_cons (r : Record) (rs : List Record) (fs : FS) :
    deleteImageFiles (r :: rs) fs =
      deleteImageFiles rs
        (if r.type = RecordType.image then deleteFilePermanently fs r.content else fs) := by
  simp only [deleteImageFiles, List.foldl_cons]

theorem tempDirExists_deleteFilePermanently (fs : FS) (p : String) :
    (deleteFilePermanently fs p).tempDirExists = fs.tempDirExists := rfl

theorem dataFile_deleteFilePermanently (fs : FS) (p : String) :
    (deleteFilePermanently fs p).dataFile = fs.dataFile := rfl

theorem mem_deleteFilePermanently (fs : FS) (p q : String) :
    q ∈ (deleteFilePermanently fs p).tempFiles ↔ q ∈ fs.tempFiles ∧ q ≠ p := by
  simp [deleteFilePermanently]

theorem tempDirExists_deleteImageFiles (rs : List Record) (fs : FS) :
    (deleteImageFiles rs fs).tempDirExists = fs.tempDirExists := by
  induction rs generalizing fs with
  | nil => rfl
  | cons r rs ih =>
      rw [deleteImageFiles_cons, ih]
      by_cases h : r.type = RecordType.image <;> simp [h, deleteFilePermanently]

theorem dataFile_deleteImageFiles (rs : List Record) (fs : FS) :
    (deleteImageFiles rs fs).dataFile = fs.dataFile := by
  induction rs generalizing fs with
  | nil => rfl
  | cons r rs ih =>
      rw [deleteImageFiles_cons, ih]
      by_cases h : r.type = RecordType.image <;> simp [h, deleteFilePermanently]

theorem mem_deleteImageFiles (rs : List Record) (fs : FS) (q : String) :
    q ∈ (deleteImageFiles rs fs).tempFiles ↔
      q ∈ fs.tempFiles ∧ ∀ r ∈ rs, r.type = RecordType.image → r.content ≠ q := by
  induction rs generalizing fs with
  | nil => simp [deleteImageFiles]
  | cons r rs ih =>
      rw [deleteImageFiles_cons]
      by_cases h : r.type = RecordType.image
      · rw [if_pos h, ih, mem_deleteFilePermanently]
        simp only [List.forall_mem_cons, h, forall_const]
        constructor
        · rintro ⟨⟨hq, hne⟩, hall⟩
          exact ⟨hq, fun hc => hne hc.symm, hall⟩
        · rintro ⟨hq, hne, hall⟩
          exact ⟨⟨hq, fun hc => hne hc.symm⟩, hall⟩
      · rw [if_neg h, ih]
        simp only [List.forall_mem_cons, h, false_implies, true_and]

theorem extractFirst_decomp (p : Record → Prop) [DecidablePred p] :
    ∀ (l : List Record) (e : Record) (rest : List Record),
      extractFirst p l = some (e, rest) →
      ∃ l₁ l₂, l = l₁ ++ e :: l₂ ∧ rest = l₁ ++ l₂ ∧ p e ∧ ∀ x ∈ l₁, ¬ p x := by
  intro l
  induction l with
  | nil => intro e rest h; simp [extractFirst] at h
  | cons x xs ih =>
      intro e rest h
      by_cases hx : p x
      · rw [extractFirst, if_pos hx] at h
        obtain ⟨rfl, rfl⟩ : x = e ∧ xs = rest := by
          constructor <;> [exact congrArg Prod.fst (Option.some.inj h);
            exact congrArg Prod.snd (Option.some.inj h)]
        exact ⟨[], xs, rfl, rfl, hx, by simp⟩
      · rw [extractFirst, if_neg hx] at h
        cases hrec : extractFirst p xs with
        | none => rw [hrec] at h; simp at h
        | some pr =>
            rw [hrec] at h
            simp only [Option.map_some'] at h
            obtain ⟨he, hrest⟩ : pr.1 = e ∧ x :: pr.2 = rest := by
              constructor <;> [exact congrArg Prod.fst (Option.some.inj h);
                exact congrArg Prod.snd (Option.some.inj h)]
            obtain ⟨l₁, l₂, hxs, hr2, hpe, hnall⟩ := ih pr.1 pr.2 (by rw [hrec])
            refine ⟨x :: l₁, l₂, ?_, ?_, he ▸ hpe, ?_⟩
            · rw [hxs, he]; rfl
            · rw [← hrest, hr2]; rfl
            · intro y hy
              rcases List.mem_cons.mp hy with rfl | hy
              · exact hx
              · exact hnall y hy

theorem extractFirst_length (p : Record → Prop) [DecidablePred p]
    (l : List Record) (e : Record) (rest : List Record)
    (h : extractFirst p l = some (e, rest)) : l.length = rest.length + 1 := by
  obtain ⟨l₁, l₂, h1, h2, _, _⟩ := extractFirst_decomp p l e rest h
  subst h1; subst h2; simp; omega

theorem extractFirst_sublist (p : Record → Prop) [DecidablePred p]
    (l : List Record) (e : Record) (rest : List Record)
    (h : extractFirst p l = some (e, rest)) : rest.Sublist l := by
  obtain ⟨l₁, l₂, h1, h2, _, _⟩ := extractFirst_decomp p l e rest h
  subst h1; subst h2
  exact List.Sublist.append_left (List.sublist_cons_self e l₂) l₁

theorem extractFirst_perm (p : Record → Prop) [DecidablePred p]
    (l : List Record) (e : Record) (rest : List Record)
    (h : extractFirst p l = some (e, rest)) : List.Perm l (e :: rest) := by
  obtain ⟨l₁, l₂, h1, h2, _, _⟩ := extractFirst_decomp p l e rest h
  subst h1; subst h2
  exact List.perm_middle

theorem mem_insertDesc (r a : Record) (l : List Record) :
    a ∈ insertDesc r l ↔ a = r ∨ a ∈ l := by
  induction l with
  | nil => simp [insertDesc]
  | cons x xs ih =>
      by_cases h : x.id < r.id
      · rw [insertDesc, if_pos h]; simp
      · rw [insertDesc, if_neg h]
        simp only [List.mem_cons, ih]
        tauto

theorem pairwise_insertDesc (r : Record) (l : List Record)
    (hl : List.Pairwise descById l) : List.Pairwise descById (insertDesc r l) := by
  induction l with
  | nil => simp [insertDesc, List.pairwise_singleton]
  | cons x xs ih =>
      rcases List.pairwise_cons.mp hl with ⟨hx, hxs⟩
      by_cases h : x.id < r.id
      · rw [insertDesc, if_pos h]
        refine List.pairwise_cons.mpr ⟨?_, hl⟩
        intro b hb
        rcases List.mem_cons.mp hb with rfl | hb
        · exact le_of_lt h
        · exact le_trans (hx b hb) (le_of_lt h)
      · rw [insertDesc, if_neg h]
        refine List.pairwise_cons.mpr ⟨?_, ih hxs⟩
        intro b hb
        rcases (mem_insertDesc r b xs).mp hb with rfl | hb
        · exact le_of_not_lt h
        · exact hx b hb

theorem pairwise_sortDesc (l : List Record) : List.Pairwise descById (sortDesc l) := by
  induction l with
  | nil => exact List.Pairwise.nil
  | cons x xs ih => exact pairwise_insertDesc x (sortDesc xs) ih

theorem cleanupFold_mem (refs : List String) :
    ∀ (l : List String) (fs : FS) (q : String),
      q ∈ (l.foldl (fun acc p => if p ∈ refs then acc else deleteFilePermanently acc p) fs).tempFiles ↔
        q ∈ fs.tempFiles ∧ (q ∈ l → q ∈ refs) := by
  intro l
  induction l with
  | nil => intro fs q; simp
  | cons p l ih =>
      intro fs q
      rw [List.foldl_cons]
      by_cases hp : p ∈ refs
      · rw [if_pos hp, ih]
        constructor
        · rintro ⟨hq, himp⟩
          refine ⟨hq, fun hql => ?_⟩
          rcases List.mem_cons.mp hql with rfl | hql
          · exact hp
          · exact himp hql
        · rintro ⟨hq, himp⟩
          exact ⟨hq, fun hql => himp (List.mem_cons_of_mem p hql)⟩
      · rw [if_neg hp, ih, mem_deleteFilePermanently]
        constructor
        · rintro ⟨⟨hq, hne⟩, himp⟩
          refine ⟨hq, fun hql => ?_⟩
          rcases List.mem_cons.mp hql with rfl | hql
          · exact absurd rfl hne
          · exact himp hql
        · rintro ⟨hq, himp⟩
          refine ⟨⟨hq, fun hc => hp (hc ▸ himp (List.mem_cons.mpr (Or.inl hc)))⟩,
            fun hql => himp (List.mem_cons_of_mem p hql)⟩

theorem cleanupFold_tempDirExists (refs : List String) :
    ∀ (l : List String) (fs : FS),
      (l.foldl (fun acc p => if p ∈ refs then acc else deleteFilePermanently acc p) fs).tempDirExists =
        fs.tempDirExists := by
  intro l
  induction l with
  | nil => intro fs; rfl
  | cons p l ih =>
      intro fs
      rw [List.foldl_cons]
      by_cases hp : p ∈ refs
      · rw [if_pos hp, ih]
      · rw [if_neg hp, ih]; rfl

theorem cleanupFold_dataFile (refs : List String) :
    ∀ (l : List String) (fs : FS),
      (l.foldl (fun acc p => if p ∈ refs then acc else deleteFilePermanently acc p) fs).dataFile =
        fs.dataFile := by
  intro l
  induction l with
  | nil => intro fs; rfl
  | cons p l ih =>
      intro fs
      rw [List.foldl_cons]
      by_cases hp : p ∈ refs
      · rw [if_pos hp, ih]
      · rw [if_neg hp, ih]; rfl

theorem cleanupOrphanedImages_records (s : Storage) :
    (cleanupOrphanedImages s).records = s.records := by
  rw [cleanupOrphanedImages]
  by_cases h : s.fs.tempDirExists <;> simp [h]

theorem cleanupOrphanedImages_config (s : Storage) :
    (cleanupOrphanedImages s).config = s.config := by
  rw [cleanupOrphanedImages]
  by_cases h : s.fs.tempDirExists <;> simp [h]

theorem cleanupOrphanedImages_maxRecords (s : Storage) :
    (cleanupOrphanedImages s).maxRecords = s.maxRecords := by
  rw [cleanupOrphanedImages]
  by_cases h : s.fs.tempDirExists <;> simp [h]

theorem filterByAge_records_sublist (now : Int) (s : Storage) :
    (filterByAge now s).records.Sublist s.records := by
  cases hc : s.config with
  | none => simp [filterByAge, hc]
  | some cfg =>
      cases hm : cfg.maxAgeMinutes with
      | none => simp [filterByAge, hc, hm]
      | some m =>
          simp only [filterByAge, hc, hm]
          exact List.filter_sublist s.records

theorem filterByAge_config (now : Int) (s : Storage) :
    (filterByAge now s).config = s.config := by
  cases hc : s.config with
  | none => simp [filterByAge, hc]
  | some cfg =>
      cases hm : cfg.maxAgeMinutes with
      | none => simp [filterByAge, hc, hm]
      | some m => simp [filterByAge, hc, hm]

theorem filterByAge_maxRecords (now : Int) (s : Storage) :
    (filterByAge now s).maxRecords = s.maxRecords := by
  cases hc : s.config with
  | none => simp [filterByAge, hc]
  | some cfg =>
      cases hm : cfg.maxAgeMinutes with
      | none => simp [filterByAge, hc, hm]
      | some m => simp [filterByAge, hc, hm]

theorem saveData_records_sublist (s : Storage) :
    (saveData s).records.Sublist s.records := by
  cases hm : s.maxRecords with
  | none => simp [saveData, hm]
  | some n =>
      by_cases h : s.records.length > n
      · simp only [saveData, hm, if_pos h]
        exact List.take_sublist n s.records
      · simp [saveData, hm, if_neg h]

theorem saveData_records_length (s : Storage) (n : Nat) (h : s.maxRecords = some n) :
    (saveData s).records.length ≤ n := by
  by_cases hl : s.records.length > n
  · simp only [saveData, h, if_pos hl, List.length_take]
    omega
  · simp only [saveData, h, if_neg hl]
    omega

theorem saveData_records_of_le (s : Storage)
    (hle : ∀ n, s.maxRecords = some n → s.records.length ≤ n) :
    (saveData s).records = s.records := by
  cases hm : s.maxRecords with
  | none => simp [saveData, hm]
  | some n =>
      have := hle n hm
      simp [saveData, hm, if_neg (by omega : ¬ s.records.length > n)]

theorem saveData_fs_of_le (s : Storage)
    (hle : ∀ n, s.maxRecords = some n → s.records.length ≤ n) :
    (saveData s).fs = { s.fs with dataFile := some s.records } := by
  cases hm : s.maxRecords with
  | none => simp [saveData, hm]
  | some n =>
      have := hle n hm
      simp [saveData, hm, if_neg (by omega : ¬ s.records.length > n)]

theorem clearAll_records (s : Storage) : (clearAll s).records = [] := by
  have h := saveData_records_sublist
    { s with records := [], fs := deleteImageFiles s.records s.fs }
  simp only [clearAll]
  exact List.sublist_nil.mp h

theorem clearAll_fs (s : Storage) (hwf : s.fs.wf) :
    (clearAll s).fs.tempFiles = [] ∧ (clearAll s).fs.dataFile = none ∧
      (clearAll s).fs.tempDirExists = false := by
  have hle : ∀ n,
      (Storage.mk s.config s.maxRecords [] (deleteImageFiles s.records s.fs)).maxRecords = some n →
      (Storage.mk s.config s.maxRecords [] (deleteImageFiles s.records s.fs)).records.length ≤ n :=
    fun n _ => by simp
  have hfs := saveData_fs_of_le _ hle
  simp only [clearAll, hfs]
  by_cases hd : (deleteImageFiles s.records s.fs).tempDirExists
  · simp [hd]
  · have hdir : s.fs.tempDirExists = false := by
      rw [tempDirExists_deleteImageFiles] at hd
      simpa using hd
    have hempty : s.fs.tempFiles = [] := hwf hdir
    have htf : (deleteImageFiles s.records s.fs).tempFiles = [] := by
      rw [List.eq_nil_iff_forall_not_mem]
      intro q hq
      rw [mem_deleteImageFiles] at hq
      rw [hempty] at hq
      exact absurd hq.1 (List.not_mem_nil q)
    simp [hd, htf]

/-- C5: for every store state (whose temp files live inside the temp
directory), `clear_all` leaves an empty record list, deletes every temp
image file and the temp-images directory, and removes the backing JSON
data file. -/
theorem clearAll_clears_everything (s : Storage) (hwf : s.fs.wf) :
    (clearAll s).records = [] ∧ (clearAll s).fs.tempFiles = [] ∧
      (clearAll s).fs.dataFile = none ∧ (clearAll s).fs.tempDirExists = false :=
  ⟨clearAll_records s, (clearAll_fs s hwf).1, (clearAll_fs s hwf).2.1,
    (clearAll_fs s hwf).2.2⟩

theorem clearAll_clears_everything_witness :
    sampleStorage.fs.wf ∧
      ((clearAll sampleStorage).records = [] ∧
        (clearAll sampleStorage).fs.tempFiles = [] ∧
        (clearAll sampleStorage).fs.dataFile = none ∧
        (clearAll sampleStorage).fs.tempDirExists = false) :=
  ⟨fun h => Bool.noConfusion h,
    clearAll_clears_everything sampleStorage (fun h => Bool.noConfusion h)⟩

/-- C10: with no config file on disk, a fresh `Config` has
`max_records = None`, `max_age_minutes = None` and
`clear_data_on_exit = True`; consequently the exit handler of the main
window clears the whole clipboard history. -/
theorem default_config_and_exit_clear :
    (configInit none).maxRecords = none ∧ (configInit none).maxAgeMinutes = none ∧
      (configInit none).clearDataOnExit = true ∧
      ∀ s : Storage, (quitClearStep (some (configInit none)) s).records = [] := by
  refine ⟨rfl, rfl, rfl, fun s => ?_⟩
  show (clearAll s).records = []
  exact clearAll_records s

/-- C4: with `max_age_minutes = M` configured, after an age-filter pass
every surviving record is at most M minutes old (measured as
`now - id ≤ M*60` seconds), and the backing image file of every
filtered-out image record is gone from the temp files. -/
theorem filterByAge_age_bound_and_image_cleanup (now : Int) (s : Storage)
    (cfg : ConfigData) (m : Int) (hc : s.config = some cfg)
    (hm : cfg.maxAgeMinutes = some m) :
    (∀ r ∈ (filterByAge now s).records, now - r.id ≤ m * 60) ∧
      (∀ r ∈ s.records, ¬ (now - r.id ≤ m * 60) → r.type = RecordType.image →
        r.content ∉ (filterByAge now s).fs.tempFiles) := by
  simp only [filterByAge, hc, hm]
  constructor
  · intro r hr
    have := List.mem_filter.mp hr
    simpa using this.2
  · intro r hr hage himg
    rw [mem_deleteImageFiles]
    rintro ⟨_, hall⟩
    exact hall r (List.mem_filter.mpr ⟨hr, by simpa using hage⟩) himg rfl

theorem filterByAge_age_bound_and_image_cleanup_witness :
    sampleAgeStorage.config = some sampleAgeConfig ∧
      sampleAgeConfig.maxAgeMinutes = some 1 ∧
      ((∀ r ∈ (filterByAge 1000 sampleAgeStorage).records, 1000 - r.id ≤ 1 * 60) ∧
        (∀ r ∈ sampleAgeStorage.records, ¬ (1000 - r.id ≤ 1 * 60) →
          r.type = RecordType.image →
          r.content ∉ (filterByAge 1000 sampleAgeStorage).fs.tempFiles)) :=
  ⟨rfl, rfl, filterByAge_age_bound_and_image_cleanup 1000 sampleAgeStorage
    sampleAgeConfig 1 rfl rfl⟩

/-- C9: when no record with the given id is an image, `delete_record`
removes the records with that id and rewrites the JSON data file, leaving
the temp files and the temp directory untouched. -/
theorem deleteRecord_non_image_frame (s : Storage) (rid : Int)
    (hfind : ∀ r ∈ s.records, r.id = rid → r.type ≠ RecordType.image)
    (hlen : ∀ n, s.maxRecords = some n → s.records.length ≤ n) :
    (deleteRecord s rid).records = s.records.filter (fun r => r.id ≠ rid) ∧
      (deleteRecord s rid).fs.tempFiles = s.fs.tempFiles ∧
      (deleteRecord s rid).fs.tempDirExists = s.fs.tempDirExists ∧
      (deleteRecord s rid).fs.dataFile =
        some (s.records.filter (fun r => r.id ≠ rid)) := by
  have hfs' : (match s.records.find? (fun r => r.id == rid) with
      | some r =>
          if r.type = RecordType.image then deleteFilePermanently s.fs r.content
          else s.fs
      | none => s.fs) = s.fs := by
    cases hf : s.records.find? (fun r => r.id == rid) with
    | none => rfl
    | some r =>
        have hmem := List.mem_of_find?_eq_some hf
        have hid : r.id = rid := by
          have := List.find?_some hf
          simpa using this
        simp [hfind r hmem hid]
  have hle1 : ∀ n,
      (Storage.mk s.config s.maxRecords (s.records.filter (fun r => r.id ≠ rid)) s.fs).maxRecords
        = some n →
      (Storage.mk s.config s.maxRecords
        (s.records.filter (fun r => r.id ≠ rid)) s.fs).records.length ≤ n := by
    intro n hn
    simp only at hn ⊢
    exact le_trans (List.length_filter_le _ _) (hlen n hn)
  have h1 := saveData_records_of_le _ hle1
  have h2 := saveData_fs_of_le _ hle1
  simp only [deleteRecord, hfs']
  simp only [ne_eq, decide_not] at h1 h2 ⊢
  exact ⟨by simp [h1], by simp [h2], by simp [h2], by simp [h2, h1]⟩

theorem deleteRecord_non_image_frame_witness :
    (∀ r ∈ sampleDupStorage.records, r.id = 2 → r.type ≠ RecordType.image) ∧
      ((deleteRecord sampleDupStorage 2).records =
          sampleDupStorage.records.filter (fun r => r.id ≠ 2) ∧
        (deleteRecord sampleDupStorage 2).fs.tempFiles = sampleDupStorage.fs.tempFiles ∧
        (deleteRecord sampleDupStorage 2).fs.tempDirExists =
          sampleDupStorage.fs.tempDirExists ∧
        (deleteRecord sampleDupStorage 2).fs.dataFile =
          some (sampleDupStorage.records.filter (fun r => r.id ≠ 2))) :=
  ⟨by decide, deleteRecord_non_image_frame sampleDupStorage 2 (by decide)
    (fun n hn => by simp [sampleDupStorage] at hn)⟩

theorem addRecord_dedup_records (now : Int) (s : Storage) (r existing : Record)
    (rest : List Record)
    (hex : extractFirst (fun e => e.content = r.content ∧ e.type = r.type) s.records
      = some (existing, rest))
    (hlen : ∀ n, s.maxRecords = some n → s.records.length ≤ n) :
    (addRecord now s r).records =
      { existing with id := r.id, timestamp := r.timestamp } :: rest := by
  have hlr := extractFirst_length _ _ _ _ hex
  have hle1 : ∀ n,
      (Storage.mk s.config s.maxRecords
        ({ existing with id := r.id, timestamp := r.timestamp } :: rest) s.fs).maxRecords
        = some n →
      (Storage.mk s.config s.maxRecords
        ({ existing with id := r.id, timestamp := r.timestamp } :: rest) s.fs).records.length
        ≤ n := by
    intro n hn
    simp only at hn ⊢
    have := hlen n hn
    simp only [List.length_cons]
    omega
  simp only [addRecord, hex]
  exact saveData_records_of_le _ hle1

/-- C1: inserting a record whose content and type match an existing record
updates that record's id and timestamp, moves it to the front, keeps the
list length unchanged, and does not create a second matching entry. -/
theorem addRecord_dedup_updates_in_place (now : Int) (s : Storage)
    (r existing : Record) (rest : List Record)
    (hex : extractFirst (fun e => e.content = r.content ∧ e.type = r.type) s.records
      = some (existing, rest))
    (hlen : ∀ n, s.maxRecords = some n → s.records.length ≤ n) :
    (addRecord now s r).records =
        { existing with id := r.id, timestamp := r.timestamp } :: rest ∧
      (addRecord now s r).records.length = s.records.length ∧
      (addRecord now s r).records.countP
          (fun e => decide (e.content = r.content ∧ e.type = r.type)) =
        s.records.countP (fun e => decide (e.content = r.content ∧ e.type = r.type)) := by
  have hrec := addRecord_dedup_records now s r existing rest hex hlen
  have hlr := extractFirst_length _ _ _ _ hex
  have hperm := extractFirst_perm _ _ _ _ hex
  refine ⟨hrec, ?_, ?_⟩
  · rw [hrec, List.length_cons, hlr]
  · rw [hrec]
    have hpc := hperm.countP_eq
      (fun e => decide (e.content = r.content ∧ e.type = r.type))
    rw [hpc, List.countP_cons, List.countP_cons]

theorem addRecord_dedup_updates_in_place_witness :
    extractFirst
        (fun e => e.content = sampleDupNew.content ∧ e.type = sampleDupNew.type)
        sampleDupStorage.records = some (sampleText, []) ∧
      ((addRecord 9 sampleDupStorage sampleDupNew).records =
          { sampleText with id := sampleDupNew.id, timestamp := sampleDupNew.timestamp } :: [] ∧
        (addRecord 9 sampleDupStorage sampleDupNew).records.length =
          sampleDupStorage.records.length ∧
        (addRecord 9 sampleDupStorage sampleDupNew).records.countP
            (fun e => decide (e.content = sampleDupNew.content ∧ e.type = sampleDupNew.type)) =
          sampleDupStorage.records.countP
            (fun e => decide (e.content = sampleDupNew.content ∧ e.type = sampleDupNew.type))) :=
  ⟨by decide, addRecord_dedup_updates_in_place 9 sampleDupStorage sampleDupNew
    sampleText [] (by decide) (fun n hn => by simp [sampleDupStorage] at hn)⟩

/-- C6 counterexample: a detected image change (hash `"h"` differs from the
last-seen value `none`) whose decode fails does not overwrite the last-seen
value: it stays `none` instead of becoming `some "h"`, and nothing is
stored, so the capture is retried on the next poll. -/
theorem decode_failure_keeps_last_content_cex :
    some "h" ≠ (none : Option String) ∧
      (checkClipboardImage none "h" false "p.png" 5 "t" sampleEmptyStorage).1 = none ∧
      (checkClipboardImage none "h" false "p.png" 5 "t" sampleEmptyStorage).1 ≠ some "h" ∧
      (checkClipboardImage none "h" false "p.png" 5 "t" sampleEmptyStorage).2 =
        sampleEmptyStorage := by
  refine ⟨by decide, ?_, by decide, ?_⟩ <;> decide

/-- C6 amended: on a detected image change the last-seen value is updated
only when the decode-and-save step succeeds; when decoding fails the
last-seen value and the storage are unchanged, so the capture is retried
until the clipboard content changes again. -/
theorem checkClipboardImage_last_content (last : Option String) (hash : String)
    (decodeOk : Bool) (path : String) (now : Int) (ts : String) (storage : Storage)
    (hchange : some hash ≠ last) :
    (decodeOk = false →
        (checkClipboardImage last hash decodeOk path now ts storage).1 = last ∧
        (checkClipboardImage last hash decodeOk path now ts storage).2 = storage) ∧
      (decodeOk = true →
        (checkClipboardImage last hash decodeOk path now ts storage).1 = some hash) := by
  constructor
  · rintro rfl
    simp [checkClipboardImage, hchange]
  · rintro rfl
    simp [checkClipboardImage, hchange]

theorem checkClipboardImage_last_content_witness :
    (some "h" ≠ (none : Option String)) ∧
      ((true = false →
          (checkClipboardImage none "h" true "p.png" 5 "t" sampleEmptyStorage).1 = none ∧
          (checkClipboardImage none "h" true "p.png" 5 "t" sampleEmptyStorage).2 =
            sampleEmptyStorage) ∧
        (true = true →
          (checkClipboardImage none "h" true "p.png" 5 "t" sampleEmptyStorage).1 = some "h")) :=
  ⟨by decide, checkClipboardImage_last_content none "h" true "p.png" 5 "t"
    sampleEmptyStorage (by decide)⟩

/-- C7 counterexample: two records with the same id but different content
are both kept: after adding `collideA` then `collideB` (both id 5) the
store holds two distinct entries sharing id 5, because deduplication is by
content and type, not by id. -/
theorem id_collision_duplicate_cex :
    collideA.id = collideB.id ∧ collideA ≠ collideB ∧
      (addRecord 5 (addRecord 5 sampleEmptyStorage collideA) collideB).records =
        [collideB, collideA] ∧
      (addRecord 5 (addRecord 5 sampleEmptyStorage collideA) collideB).records.countP
        (fun e => decide (e.id = 5)) = 2 := by
  refine ⟨rfl, by decide, by decide, by decide⟩

/-- C7 amended: an id collision between a new record and an existing record
with the same content and type resurfaces the existing record (the later
add overwrites it in place) and cannot create a duplicate: a record list
with pairwise-distinct ids keeps pairwise-distinct ids and its length. -/
theorem same_content_id_collision_no_duplicate (now : Int) (s : Storage)
    (r existing : Record) (rest : List Record)
    (hex : extractFirst (fun e => e.content = r.content ∧ e.type = r.type) s.records
      = some (existing, rest))
    (hlen : ∀ n, s.maxRecords = some n → s.records.length ≤ n)
    (hid : existing.id = r.id)
    (hnd : (s.records.map Record.id).Nodup) :
    ((addRecord now s r).records.map Record.id).Nodup ∧
      (addRecord now s r).records.length = s.records.length := by
  have hrec := addRecord_dedup_records now s r existing rest hex hlen
  have hperm := extractFirst_perm _ _ _ _ hex
  have hlr := extractFirst_length _ _ _ _ hex
  refine ⟨?_, by rw [hrec, List.length_cons, hlr]⟩
  rw [hrec]
  have hmap : (({ existing with id := r.id, timestamp := r.timestamp } :: rest).map Record.id)
      = ((existing :: rest).map Record.id) := by
    simp [hid]
  rw [hmap]
  exact ((hperm.map Record.id).nodup_iff).mp hnd

theorem same_content_id_collision_no_duplicate_witness :
    extractFirst
        (fun e => e.content = sampleDupSameId.content ∧ e.type = sampleDupSameId.type)
        sampleDupStorage.records = some (sampleText, []) ∧
      sampleText.id = sampleDupSameId.id ∧
      (sampleDupStorage.records.map Record.id).Nodup ∧
      (((addRecord 2 sampleDupStorage sampleDupSameId).records.map Record.id).Nodup ∧
        (addRecord 2 sampleDupStorage sampleDupSameId).records.length =
          sampleDupStorage.records.length) :=
  ⟨by decide, rfl, by decide,
    same_content_id_collision_no_duplicate 2 sampleDupStorage sampleDupSameId
      sampleText [] (by decide) (fun n hn => by simp [sampleDupStorage] at hn)
      rfl (by decide)⟩

theorem addRecord_length_bound (now : Int) (s : Storage) (r : Record) (n : Nat)
    (hn : s.maxRecords = some n) : (addRecord now s r).records.length ≤ n := by
  cases hex : extractFirst (fun e => e.content = r.content ∧ e.type = r.type) s.records with
  | some pr =>
      obtain ⟨e, rest⟩ := pr
      simp only [addRecord, hex]
      exact saveData_records_length _ n hn
  | none =>
      have hm : (filterByAge now
          (Storage.mk s.config s.maxRecords (r :: s.records) s.fs)).maxRecords = some n := by
        rw [filterByAge_maxRecords]
        exact hn
      simp only [addRecord, hex, hm]
      exact saveData_records_length _ n rfl

theorem saveData_eviction_images (s : Storage) (n : Nat) (hn : s.maxRecords = some n) :
    ∀ r ∈ s.records.drop n, r.type = RecordType.image →
      r.content ∉ (saveData s).fs.tempFiles := by
  intro r hr himg
  by_cases hl : s.records.length > n
  · simp only [saveData, hn, if_pos hl]
    rw [mem_deleteImageFiles]
    rintro ⟨_, hall⟩
    exact hall r hr himg rfl
  · have : s.records.drop n = [] := List.drop_eq_nil_of_le (by omega)
    rw [this] at hr
    exact absurd hr (List.not_mem_nil r)

theorem updateConfig_length_bound (now : Int) (s : Storage) (c : ConfigData) (n : Nat)
    (hn : c.maxRecords = some n) : (updateConfig now s c).records.length ≤ n := by
  have hm : (filterByAge now
      (Storage.mk (some c) c.maxRecords s.records s.fs)).maxRecords = some n := by
    rw [filterByAge_maxRecords]
    exact hn
  simp only [updateConfig, hm]
  by_cases hgt : (filterByAge now
      (Storage.mk (some c) c.maxRecords s.records s.fs)).records.length > n
  · simp only [if_pos hgt]
    split
    · exact saveData_records_length _ n rfl
    · simp only [List.length_take]
      omega
  · simp only [if_neg hgt]
    split
    · exact saveData_records_length _ n hm
    · omega

theorem loadData_length_bound (now : Int) (s : Storage) (n : Nat)
    (hn : s.maxRecords = some n) (hlen : s.records.length ≤ n) :
    (loadData now s).records.length ≤ n := by
  cases hdf : s.fs.dataFile with
  | none =>
      simp only [loadData, hdf]
      exact hlen
  | some raw =>
      have hm : (filterByAge now
          (Storage.mk s.config s.maxRecords (sortDesc raw) s.fs)).maxRecords = some n := by
        rw [filterByAge_maxRecords]
        exact hn
      simp only [loadData, hdf, hm]
      rw [cleanupOrphanedImages_records]
      simp only [List.length_take]
      omega

theorem updateConfig_eviction_images (now : Int) (s : Storage) (c : ConfigData) (n : Nat)
    (hn : c.maxRecords = some n) :
    ∀ r ∈ (filterByAge now (Storage.mk (some c) c.maxRecords s.records s.fs)).records.drop n,
      r.type = RecordType.image → r.content ∉ (updateConfig now s c).fs.tempFiles := by
  intro r hr himg
  have hm : (filterByAge now
      (Storage.mk (some c) c.maxRecords s.records s.fs)).maxRecords = some n := by
    rw [filterByAge_maxRecords]
    exact hn
  simp only [updateConfig, hm]
  by_cases hgt : (filterByAge now
      (Storage.mk (some c) c.maxRecords s.records s.fs)).records.length > n
  · simp only [if_pos hgt]
    have hnot : r.content ∉ (deleteImageFiles
        ((filterByAge now (Storage.mk (some c) c.maxRecords s.records s.fs)).records.drop n)
        (filterByAge now (Storage.mk (some c) c.maxRecords s.records s.fs)).fs).tempFiles := by
      rw [mem_deleteImageFiles]
      rintro ⟨_, hall⟩
      exact hall r hr himg rfl
    split
    · rw [saveData_fs_of_le]
      · exact hnot
      · intro k hk
        have hk' : some n = some k := hk
        obtain rfl : k = n := (Option.some.inj hk').symm
        simp only [List.length_take]
        omega
    · exact hnot
  · have hdrop : (filterByAge now
        (Storage.mk (some c) c.maxRecords s.records s.fs)).records.drop n = [] :=
      List.drop_eq_nil_of_le (by omega)
    rw [hdrop] at hr
    exact absurd hr (List.not_mem_nil r)

/-- C3 counterexample: with `max_records = 1`, adding a new text record to
a store holding one image record evicts the image record by count
truncation, yet its backing file `"a.png"` is still present afterwards:
the truncation inside `add_record` slices the list without deleting image
files. -/
theorem addRecord_truncation_keeps_image_file_cex :
    sampleStorage.maxRecords = some 1 ∧
      sampleImage ∈ sampleStorage.records ∧
      sampleImage.type = RecordType.image ∧
      (addRecord 2 sampleStorage sampleText).records = [sampleText] ∧
      sampleImage ∉ (addRecord 2 sampleStorage sampleText).records ∧
      sampleImage.content ∈ (addRecord 2 sampleStorage sampleText).fs.tempFiles := by
  refine ⟨rfl, by decide, rfl, by decide, by decide, by decide⟩

/-- C3 amended: with `max_records = N` configured, each store operation
leaves at most N records (for load the bound must hold beforehand, since a
missing data file leaves the list untouched), and the truncations inside
`_save_data` and `update_config` delete the image files of the records
they evict; the truncation inside `add_record`, however, evicts records
without deleting their image files (they remain until a later load's
orphan cleanup). -/
theorem max_records_bound_and_eviction :
    (∀ (now : Int) (s : Storage) (r : Record) (n : Nat), s.maxRecords = some n →
        (addRecord now s r).records.length ≤ n) ∧
      (∀ (now : Int) (s : Storage) (c : ConfigData) (n : Nat), c.maxRecords = some n →
        (updateConfig now s c).records.length ≤ n) ∧
      (∀ (s : Storage) (n : Nat), s.maxRecords = some n →
        (saveData s).records.length ≤ n) ∧
      (∀ (now : Int) (s : Storage) (n : Nat), s.maxRecords = some n →
        s.records.length ≤ n → (loadData now s).records.length ≤ n) ∧
      (∀ (s : Storage) (n : Nat), s.maxRecords = some n →
        ∀ r ∈ s.records.drop n, r.type = RecordType.image →
          r.content ∉ (saveData s).fs.tempFiles) ∧
      (∀ (now : Int) (s : Storage) (c : ConfigData) (n : Nat), c.maxRecords = some n →
        ∀ r ∈ (filterByAge now
            (Storage.mk (some c) c.maxRecords s.records s.fs)).records.drop n,
          r.type = RecordType.image →
          r.content ∉ (updateConfig now s c).fs.tempFiles) :=
  ⟨fun now s r n hn => addRecord_length_bound now s r n hn,
    fun now s c n hn => updateConfig_length_bound now s c n hn,
    fun s n hn => saveData_records_length s n hn,
    fun now s n hn hl => loadData_length_bound now s n hn hl,
    fun s n hn => saveData_eviction_images s n hn,
    fun now s c n hn => updateConfig_eviction_images now s c n hn⟩

theorem max_records_bound_and_eviction_witness :
    sampleOverLimit.maxRecords = some 1 ∧
      (saveData sampleOverLimit).records.length ≤ 1 ∧
      (sampleImage ∈ sampleOverLimit.records.drop 1 ∧
        sampleImage.type = RecordType.image ∧
        sampleImage.content ∉ (saveData sampleOverLimit).fs.tempFiles) ∧
      (addRecord 2 sampleStorage sampleText).records.length ≤ 1 :=
  ⟨rfl, max_records_bound_and_eviction.2.2.1 sampleOverLimit 1 rfl,
    ⟨by decide, rfl,
      max_records_bound_and_eviction.2.2.2.2.1 sampleOverLimit 1 rfl
        sampleImage (by decide) rfl⟩,
    max_records_bound_and_eviction.1 2 sampleStorage sampleText 1 rfl⟩

theorem wf_deleteImageFiles (rs : List Record) (fs : FS) (hwf : fs.wf) :
    (deleteImageFiles rs fs).wf := by
  intro h
  rw [tempDirExists_deleteImageFiles] at h
  have hnil := hwf h
  rw [List.eq_nil_iff_forall_not_mem]
  intro q hq
  rw [mem_deleteImageFiles] at hq
  rw [hnil] at hq
  exact absurd hq.1 (List.not_mem_nil q)

theorem cleanup_props (t : Storage) (hwf : t.fs.wf) :
    (∀ p ∈ (cleanupOrphanedImages t).fs.tempFiles,
        p ∈ t.fs.tempFiles ∧ ∃ r ∈ t.records, r.type = RecordType.image ∧ r.content = p) ∧
      (∀ p, (∀ r ∈ t.records, r.type = RecordType.image → r.content ≠ p) →
        p ∉ (cleanupOrphanedImages t).fs.tempFiles) := by
  by_cases hd : t.fs.tempDirExists = true
  · simp only [cleanupOrphanedImages, if_pos hd]
    constructor
    · intro p hp
      rw [cleanupFold_mem] at hp
      obtain ⟨hmem, himp⟩ := hp
      have hrefs := himp hmem
      simp only [List.mem_map, List.mem_filter] at hrefs
      obtain ⟨r, ⟨hrmem, hrimg⟩, hrc⟩ := hrefs
      exact ⟨hmem, r, hrmem, by simpa using hrimg, hrc⟩
    · intro p hnone hp
      rw [cleanupFold_mem] at hp
      obtain ⟨hmem, himp⟩ := hp
      have hrefs := himp hmem
      simp only [List.mem_map, List.mem_filter] at hrefs
      obtain ⟨r, ⟨hrmem, hrimg⟩, hrc⟩ := hrefs
      exact hnone r hrmem (by simpa using hrimg) hrc
  · simp only [cleanupOrphanedImages, if_neg hd]
    have hnil : t.fs.tempFiles = [] := hwf (by simpa using hd)
    rw [hnil]
    exact ⟨fun p hp => absurd hp (List.not_mem_nil p),
      fun p _ hp => absurd hp (List.not_mem_nil p)⟩

theorem loadData_eq (now : Int) (s : Storage) (raw : List Record)
    (hdf : s.fs.dataFile = some raw) :
    ∃ t : Storage, loadData now s = cleanupOrphanedImages t ∧
      t.records = specRetention now s.config s.maxRecords raw ∧
      t.fs.tempDirExists = s.fs.tempDirExists ∧
      (∀ q ∈ t.fs.tempFiles, q ∈ s.fs.tempFiles) ∧
      (s.fs.wf → t.fs.wf) := by
  cases hc : s.config with
  | none =>
      have hfb : filterByAge now (Storage.mk s.config s.maxRecords (sortDesc raw) s.fs)
          = Storage.mk s.config s.maxRecords (sortDesc raw) s.fs := by
        simp [filterByAge, hc]
      cases hmr : s.maxRecords with
      | none =>
          refine ⟨Storage.mk s.config s.maxRecords (sortDesc raw) s.fs, ?_, ?_, rfl,
            fun q hq => hq, fun h => h⟩
          · simp only [loadData, hdf, hfb]
            simp only [hmr]
          · simp [specRetention, specAgeFilter, specTruncate, hc, hmr]
      | some n =>
          refine ⟨Storage.mk s.config s.maxRecords ((sortDesc raw).take n) s.fs, ?_, ?_, rfl,
            fun q hq => hq, fun h => h⟩
          · simp only [loadData, hdf, hfb]
            simp only [hmr]
          · simp [specRetention, specAgeFilter, specTruncate, hc, hmr]
  | some cfg =>
      cases hma : cfg.maxAgeMinutes with
      | none =>
          have hfb : filterByAge now (Storage.mk s.config s.maxRecords (sortDesc raw) s.fs)
              = Storage.mk s.config s.maxRecords (sortDesc raw) s.fs := by
            simp [filterByAge, hc, hma]
          cases hmr : s.maxRecords with
          | none =>
              refine ⟨Storage.mk s.config s.maxRecords (sortDesc raw) s.fs, ?_, ?_, rfl,
                fun q hq => hq, fun h => h⟩
              · simp only [loadData, hdf, hfb]
                simp only [hmr]
              · simp [specRetention, specAgeFilter, specTruncate, hc, hma, hmr]
          | some n =>
              refine ⟨Storage.mk s.config s.maxRecords ((sortDesc raw).take n) s.fs, ?_, ?_, rfl,
                fun q hq => hq, fun h => h⟩
              · simp only [loadData, hdf, hfb]
                simp only [hmr]
              · simp [specRetention, specAgeFilter, specTruncate, hc, hma, hmr]
      | some m =>
          have hfb : filterByAge now (Storage.mk s.config s.maxRecords (sortDesc raw) s.fs)
              = Storage.mk s.config s.maxRecords
                  ((sortDesc raw).filter (fun r => now - r.id ≤ m * 60))
                  (deleteImageFiles
                    ((sortDesc raw).filter (fun r => ¬ (now - r.id ≤ m * 60))) s.fs) := by
            simp [filterByAge, hc, hma]
          cases hmr : s.maxRecords with
          | none =>
              refine ⟨Storage.mk s.config s.maxRecords
                  ((sortDesc raw).filter (fun r => now - r.id ≤ m * 60))
                  (deleteImageFiles
                    ((sortDesc raw).filter (fun r => ¬ (now - r.id ≤ m * 60))) s.fs),
                ?_, ?_, tempDirExists_deleteImageFiles _ _,
                fun q hq => ((mem_deleteImageFiles _ _ q).mp hq).1,
                fun hwf => wf_deleteImageFiles _ _ hwf⟩
              · simp only [loadData, hdf, hfb]
                simp only [hmr]
              · simp [specRetention, specAgeFilter, specTruncate, hc, hma, hmr]
          | some n =>
              refine ⟨Storage.mk s.config s.maxRecords
                  (((sortDesc raw).filter (fun r => now - r.id ≤ m * 60)).take n)
                  (deleteImageFiles
                    ((sortDesc raw).filter (fun r => ¬ (now - r.id ≤ m * 60))) s.fs),
                ?_, ?_, tempDirExists_deleteImageFiles _ _,
                fun q hq => ((mem_deleteImageFiles _ _ q).mp hq).1,
                fun hwf => wf_deleteImageFiles _ _ hwf⟩
              · simp only [loadData, hdf, hfb]
                simp only [hmr]
              · simp [specRetention, specAgeFilter, specTruncate, hc, hma, hmr]

/-- C2: on load with an existing data file, the record list equals the
spec's retention pipeline (sort by id descending, then filter by age, then
truncate by count), and the orphan pass then deletes exactly the temp
files not referenced by a surviving image record: every remaining temp
file was already present and is the content of a surviving image record,
and every unreferenced temp file is gone. -/
theorem loadData_retention_pipeline (now : Int) (s : Storage) (raw : List Record)
    (hdf : s.fs.dataFile = some raw) (hwf : s.fs.wf) :
    (loadData now s).records = specRetention now s.config s.maxRecords raw ∧
      (∀ p ∈ (loadData now s).fs.tempFiles,
        p ∈ s.fs.tempFiles ∧ ∃ r ∈ (loadData now s).records,
          r.type = RecordType.image ∧ r.content = p) ∧
      (∀ p ∈ s.fs.tempFiles,
        (∀ r ∈ (loadData now s).records, r.type = RecordType.image → r.content ≠ p) →
          p ∉ (loadData now s).fs.tempFiles) := by
  obtain ⟨t, ht, hrec, _, hsub, hwft⟩ := loadData_eq now s raw hdf
  have hcp := cleanup_props t (hwft hwf)
  have hrecords : (loadData now s).records = t.records := by
    rw [ht, cleanupOrphanedImages_records]
  refine ⟨by rw [hrecords, hrec], ?_, ?_⟩
  · intro p hp
    rw [ht] at hp
    obtain ⟨hmem, r, hrmem, himg, hcont⟩ := hcp.1 p hp
    exact ⟨hsub p hmem, r, by rw [hrecords]; exact hrmem, himg, hcont⟩
  · intro p _ hnone
    rw [hrecords] at hnone
    rw [ht]
    exact hcp.2 p hnone

theorem loadData_retention_pipeline_witness :
    sampleLoadStorage.fs.dataFile = some [sampleImage, sampleText] ∧
      ((loadData 30 sampleLoadStorage).records =
          specRetention 30 sampleLoadStorage.config sampleLoadStorage.maxRecords
            [sampleImage, sampleText] ∧
        (∀ p ∈ (loadData 30 sampleLoadStorage).fs.tempFiles,
          p ∈ sampleLoadStorage.fs.tempFiles ∧
            ∃ r ∈ (loadData 30 sampleLoadStorage).records,
              r.type = RecordType.image ∧ r.content = p) ∧
        (∀ p ∈ sampleLoadStorage.fs.tempFiles,
          (∀ r ∈ (loadData 30 sampleLoadStorage).records,
            r.type = RecordType.image → r.content ≠ p) →
            p ∉ (loadData 30 sampleLoadStorage).fs.tempFiles)) :=
  ⟨rfl, loadData_retention_pipeline 30 sampleLoadStorage [sampleImage, sampleText]
    rfl (fun h => Bool.noConfusion h)⟩

theorem specAgeFilter_sublist (now : Int) (cfg : Option ConfigData) (l : List Record) :
    (specAgeFilter now cfg l).Sublist l := by
  cases cfg with
  | none =>
      simp only [specAgeFilter]
      exact List.Sublist.refl l
  | some c =>
      cases hm : c.maxAgeMinutes with
      | none =>
          simp only [specAgeFilter, hm]
          exact List.Sublist.refl l
      | some m =>
          simp only [specAgeFilter, hm]
          exact List.filter_sublist l

theorem specTruncate_sublist (maxR : Option Nat) (l : List Record) :
    (specTruncate maxR l).Sublist l := by
  cases maxR with
  | none =>
      simp only [specTruncate]
      exact List.Sublist.refl l
  | some n =>
      simp only [specTruncate]
      exact List.take_sublist n l

theorem specRetention_sublist (now : Int) (cfg : Option ConfigData)
    (maxR : Option Nat) (raw : List Record) :
    (specRetention now cfg maxR raw).Sublist (sortDesc raw) := by
  rw [specRetention]
  exact (specTruncate_sublist maxR _).trans (specAgeFilter_sublist now cfg _)

theorem pairwise_specRetention (now : Int) (cfg : Option ConfigData)
    (maxR : Option Nat) (raw : List Record) :
    List.Pairwise descById (specRetention now cfg maxR raw) :=
  List.Pairwise.sublist (specRetention_sublist now cfg maxR raw) (pairwise_sortDesc raw)

theorem pairwise_loadData (now : Int) (s : Storage)
    (hs : List.Pairwise descById s.records) :
    List.Pairwise descById (loadData now s).records := by
  cases hdf : s.fs.dataFile with
  | none =>
      simp only [loadData, hdf]
      exact hs
  | some raw =>
      obtain ⟨t, ht, hrec, _, _, _⟩ := loadData_eq now s raw hdf
      rw [ht, cleanupOrphanedImages_records, hrec]
      exact pairwise_specRetention now s.config s.maxRecords raw

theorem pairwise_addRecord (now : Int) (s : Storage) (r : Record)
    (hs : List.Pairwise descById s.records)
    (hmax : ∀ e ∈ s.records, e.id ≤ r.id) :
    List.Pairwise descById (addRecord now s r).records := by
  cases hex : extractFirst (fun e => e.content = r.content ∧ e.type = r.type) s.records with
  | some pr =>
      obtain ⟨e, rest⟩ := pr
      simp only [addRecord, hex]
      have hrest : rest.Sublist s.records := extractFirst_sublist _ _ _ _ hex
      have hcons : List.Pairwise descById
          ({ e with id := r.id, timestamp := r.timestamp } :: rest) := by
        refine List.pairwise_cons.mpr ⟨?_, List.Pairwise.sublist hrest hs⟩
        intro b hb
        exact hmax b (List.Sublist.mem hb hrest)
      exact List.Pairwise.sublist (saveData_records_sublist _) hcons
  | none =>
      simp only [addRecord, hex]
      have hcons : List.Pairwise descById (r :: s.records) :=
        List.pairwise_cons.mpr ⟨fun b hb => hmax b hb, hs⟩
      have hfb : List.Pairwise descById
          (filterByAge now (Storage.mk s.config s.maxRecords (r :: s.records) s.fs)).records :=
        List.Pairwise.sublist (filterByAge_records_sublist _ _) hcons
      split
      · exact List.Pairwise.sublist (saveData_records_sublist _)
          (List.Pairwise.sublist (List.take_sublist _ _) hfb)
      · exact List.Pairwise.sublist (saveData_records_sublist _) hfb

theorem pairwise_applyOp (s : Storage) (op : Op)
    (hs : List.Pairwise descById s.records)
    (hok : ∀ now r, op = Op.add now r → ∀ e ∈ s.records, e.id ≤ r.id) :
    List.Pairwise descById (applyOp s op).records := by
  cases op with
  | add now r => exact pairwise_addRecord now s r hs (hok now r rfl)
  | del rid =>
      simp only [applyOp, deleteRecord]
      exact List.Pairwise.sublist (saveData_records_sublist _)
        (List.Pairwise.sublist (List.filter_sublist _) hs)
  | delMany rids =>
      simp only [applyOp, deleteMultiple]
      exact List.Pairwise.sublist (saveData_records_sublist _)
        (List.Pairwise.sublist (List.filter_sublist _) hs)
  | updateCfg now c =>
      simp only [applyOp, updateConfig]
      have hbase : List.Pairwise descById
          (filterByAge now (Storage.mk (some c) c.maxRecords s.records s.fs)).records :=
        List.Pairwise.sublist (filterByAge_records_sublist _ _) hs
      split
      · apply List.Pairwise.sublist (saveData_records_sublist _)
        split
        · split
          · exact List.Pairwise.sublist (List.take_sublist _ _) hbase
          · exact hbase
        · exact hbase
      · split
        · split
          · exact List.Pairwise.sublist (List.take_sublist _ _) hbase
          · exact hbase
        · exact hbase
  | clear =>
      show List.Pairwise descById (clearAll s).records
      rw [clearAll_records]
      exact List.Pairwise.nil
  | save => exact List.Pairwise.sublist (saveData_records_sublist s) hs
  | load now => exact pairwise_loadData now s hs

theorem pairwise_applyOps (ops : List Op) (s : Storage)
    (hs : List.Pairwise descById s.records) (hok : opsMonotone s ops = true) :
    List.Pairwise descById (applyOps s ops).records := by
  induction ops generalizing s with
  | nil => exact hs
  | cons op ops ih =>
      rw [opsMonotone, Bool.and_eq_true] at hok
      obtain ⟨h1, h2⟩ := hok
      refine ih (applyOp s op) (pairwise_applyOp s op hs ?_) h2
      intro now r hop e he
      subst hop
      rw [opOk, List.all_eq_true] at h1
      simpa using h1 e he

theorem pairwise_init (now : Int) (cfg : Option ConfigData) (fs : FS) :
    List.Pairwise descById (Storage.init now cfg fs).records :=
  pairwise_loadData now
    (Storage.mk cfg (match cfg with | none => some 50 | some c => c.maxRecords) [] fs)
    List.Pairwise.nil

/-- C8: from any freshly constructed store, after any sequence of
operations in which every added record's id is at least as large as every
id already present, the record list stays in descending id order: each
adjacent pair satisfies `earlier.id ≥ later.id`. -/
theorem reachable_records_sorted_desc (now : Int) (cfg : Option ConfigData) (fs : FS)
    (ops : List Op) (hmono : opsMonotone (Storage.init now cfg fs) ops = true) :
    List.Chain' descById (applyOps (Storage.init now cfg fs) ops).records :=
  (pairwise_applyOps ops _ (pairwise_init now cfg fs) hmono).chain'

theorem reachable_records_sorted_desc_witness :
    opsMonotone (Storage.init 1 none emptyFS)
        [Op.add 2 sampleText, Op.add 9 sampleDupNew] = true ∧
      List.Chain' descById (applyOps (Storage.init 1 none emptyFS)
        [Op.add 2 sampleText, Op.add 9 sampleDupNew]).records :=
  ⟨by decide, reachable_records_sorted_desc 1 none emptyFS
    [Op.add 2 sampleText, Op.add 9 sampleDupNew] (by decide)⟩
